import Mathlib

/-!
Verification of the timeline & ruby-text layout engine of `src/core/gen_capcut.py`
(class `CapCutGenerator`), as a shallow embedding in Lean 4.

Modelling conventions:
* Python unbounded `int` is `ℤ` (microsecond times/durations), list indices are `ℕ`.
* Python `str` is `List Char` (one element per Unicode code point, matching
  Python's `len`/indexing semantics).
* Python `float` arithmetic in the layout constants (0.035, 0.058, ...) is
  modelled over `ℚ` with the exact decimal values; the claims under study are
  about which characters are summed and the algebraic shape of the positions,
  which is unaffected by double rounding at these magnitudes.
* The JSON dictionaries manipulated by the generator are modelled by records
  carrying exactly the fields the generator reads or writes; prototype
  "deep-copy then overwrite" cloning is modelled by a record update of the
  prototype, which is faithful for every field the claims mention (all of
  them are overwritten by the clone helpers).
* File-system scanning and `ffprobe`/`mutagen` probing are I/O: the resolved
  duration lists are passed to the sequencer as inputs, and the duration
  resolver itself is modelled over the exact rational the probe reports.
-/

namespace VP

/-- Track type tag: the `"type"` field of a track dict. -/
inductive TrackType where
  | video
  | audio
  | text
deriving DecidableEq, Repr, Inhabited

/-- A material dict (`materials.videos` / `materials.audios` entries); the
generator only ever writes `id`, `path` and `duration`, and only `duration`
is observable by the claims. -/
structure Material where
  duration : ℤ := 0
deriving DecidableEq, Repr, Inhabited

/-- A segment dict.  Media segments use the timerange/render fields; text
segments additionally use `content` (the text of the cloned material),
`x`/`y` (`clip.transform`) and `scaleX`/`scaleY` (`clip.scale`). -/
structure Seg where
  sourceStart : ℤ := 0
  sourceDuration : ℤ := 0
  targetStart : ℤ := 0
  targetDuration : ℤ := 0
  renderIndex : ℕ := 0
  content : List Char := []
  x : ℚ := 0
  y : ℚ := 0
  scaleX : ℚ := 1
  scaleY : ℚ := 1
deriving DecidableEq, Repr, Inhabited

/-- A track dict: its `"type"` and `"segments"` fields. -/
structure Track where
  type : TrackType
  segments : List Seg
deriving DecidableEq, Repr, Inhabited

/-- The `content["materials"]` sub-dict (the lists the generator touches). -/
structure Materials where
  videos : List Material := []
  audios : List Material := []
  texts : List Material := []
deriving DecidableEq, Repr, Inhabited

/-- The draft-content dict: the fields `add_media_tracks` reads or writes. -/
structure Content where
  materials : Materials
  tracks : List Track
  duration : ℤ
deriving DecidableEq, Repr, Inhabited

/-- One record of `subtitles/synced/ja.json`: `start`/`end` timestamp strings
(present in the file, never read by `process_subtitles`), the raw `text`, and
the `kanjis` list of `(kanji, yomigana)` pairs. -/
structure SubRec where
  startHint : List Char := []
  endHint : List Char := []
  text : List Char := []
  kanjis : List (List Char × List Char) := []
deriving DecidableEq, Repr, Inhabited

/-! ### Duration Resolver (`_get_media_duration`) -/

/-- Python `int()` applied to a (rational-valued) number: truncation toward
zero. -/
def pyInt (q : ℚ) : ℤ :=
  if 0 ≤ q then ⌊q⌋ else -⌊-q⌋

/-- Embedding of `_get_media_duration`: `probe` is the duration in seconds reported by
`ffprobe` when it succeeds, `meta` the length in seconds reported by the
mutagen fallback when it succeeds.  The code computes
`int(float(result) * 1000000)` resp. `int(f.info.length * 1000000)` and
returns `0` when both strategies fail.  The reported seconds are modelled as
the exact rational the tool prints. -/
def getMediaDuration (probe : Option ℚ) (meta : Option ℚ) : ℤ :=
  match probe with
  | some s => pyInt (s * 1000000)
  | none =>
    match meta with
    | some l => pyInt (l * 1000000)
    | none => 0

/-- Modelled from the spec: the spec's stated conversion
`round(seconds * 1_000_000)`, for comparison with `getMediaDuration`.
(`round` on `ℚ` rounds halves up; at the inputs used to compare, no tie
occurs, so every rounding convention agrees.) -/
def resolveSpecRound (probe : Option ℚ) (meta : Option ℚ) : ℤ :=
  match probe with
  | some s => round (s * 1000000)
  | none =>
    match meta with
    | some l => round (l * 1000000)
    | none => 0

/-! ### Text Wrapper (`_split_text`) -/

/-- Embedding of `text.replace('\n', '')`: drop every manual line-break character. -/
def stripNewlines (t : List Char) : List Char :=
  t.filter fun c => c != '\n'

/-- The greedy accumulation loop of `_split_text`: `current` is the line
being filled; a character is appended while `len(current) < 16`, otherwise
the full line is emitted and the character starts a new line; a nonempty
final `current` is emitted at the end. -/
def splitGo : List Char → List Char → List (List Char)
  | [], current => if current.isEmpty then [] else [current]
  | c :: cs, current =>
    if current.length < 16 then splitGo cs (current ++ [c])
    else current :: splitGo cs [c]

/-- Embedding of `_split_text`: strip manual line breaks, return the text as a single
line when it has at most 16 characters, otherwise greedily fill lines of
16 characters. -/
def splitText (text : List Char) : List (List Char) :=
  let t := stripNewlines text
  if t.length ≤ 16 then [t] else splitGo t []

/-! ### Annotation Mapper (`_map_yomigana`) -/

/-- Whether `pat` is an initial run of `text`. -/
def listStartsWith : List Char → List Char → Bool
  | _, [] => true
  | [], _ :: _ => false
  | c :: cs, d :: ds => c == d && listStartsWith cs ds

/-- Python `text.index(target, start)` as an option: the least `i ≥ start`
at which `target` occurs as a substring of `text` (`start ≤ i ≤ len text`,
the empty target matching at `start`), `none` when `ValueError` is raised. -/
def findFrom (text target : List Char) (start : ℕ) : Option ℕ :=
  ((List.range (text.length + 1 - start)).map fun j => j + start).find?
    fun i => listStartsWith (text.drop i) target

/-- The `while` loop of `_map_yomigana`: `kPtr` is the span counter `k_ptr`,
`tPtr` the scan cursor `t_ptr`.  A found span records
`(found_idx, (yomigana, len(kanji), k_ptr))` and moves the cursor to
`found_idx + len(kanji)`; a missing span only advances `k_ptr`; the loop
stops when the cursor reaches the end of the text or the spans run out.
The Python `dict` is modelled as the association list of insertions (keys
are pairwise distinct whenever every matched surface text is nonempty). -/
def mapYomiganaGo (text : List Char) :
    List (List Char × List Char) → ℕ → ℕ → List (ℕ × (List Char × ℕ × ℕ))
  | [], _, _ => []
  | k :: rest, kPtr, tPtr =>
    if tPtr < text.length then
      match findFrom text k.1 tPtr with
      | some idx =>
        (idx, (k.2, k.1.length, kPtr)) :: mapYomiganaGo text rest (kPtr + 1) (idx + k.1.length)
      | none => mapYomiganaGo text rest (kPtr + 1) tPtr
    else []

/-- Embedding of `_map_yomigana(text, kanjis)`. -/
def mapYomigana (text : List Char) (kanjis : List (List Char × List Char)) :
    List (ℕ × (List Char × ℕ × ℕ)) :=
  mapYomiganaGo text kanjis 0 0

/-! ### Sequencer (`add_media_tracks`) -/

/-- What the main loop of `add_media_tracks` accumulates: the new material
lists, the new segment lists, and the final value of `current_time_us`. -/
structure SeqOut where
  audioMats : List Material
  audioSegs : List Seg
  videoMats : List Material
  videoSegs : List Seg
  total : ℤ
deriving DecidableEq, Repr

/-- The `for i in range(count)` loop of `add_media_tracks`.  `audioDurs` is
the remaining list of resolved audio durations (`_get_media_duration` per
scanned `audios/ja/*.mp3`, lexicographic order), `videoDurs` the full list of
resolved video durations; `i` is the loop index and `t` is `current_time_us`.
When the template has no audio prototypes (`hasAudio = false`), the audio
branch is skipped and `aud_duration` stays `0`. -/
def seqLoop (hasAudio : Bool) (audProtoMat vidProtoMat : Material)
    (audProtoSeg vidProtoSeg : Seg) (videoDurs : List ℤ) :
    List ℤ → ℕ → ℤ → SeqOut
  | [], _, t => ⟨[], [], [], [], t⟩
  | d :: rest, i, t =>
    let audDur : ℤ := if hasAudio then d else 0
    let vidDur : ℤ := videoDurs.getD (i % videoDurs.length) 0
    let sourceDur : ℤ := min vidDur audDur
    let mAud : List Material := if hasAudio then [{ audProtoMat with duration := audDur }] else []
    let sAud : List Seg :=
      if hasAudio then
        [{ audProtoSeg with sourceStart := 0, sourceDuration := audDur,
                            targetStart := t, targetDuration := audDur, renderIndex := i }]
      else []
    let mVid : Material := { vidProtoMat with duration := vidDur }
    let sVid : Seg :=
      { vidProtoSeg with sourceStart := 0, sourceDuration := sourceDur,
                         targetStart := t, targetDuration := audDur, renderIndex := i }
    let out := seqLoop hasAudio audProtoMat vidProtoMat audProtoSeg vidProtoSeg videoDurs
        rest (i + 1) (t + audDur)
    ⟨mAud ++ out.audioMats, sAud ++ out.audioSegs,
     mVid :: out.videoMats, sVid :: out.videoSegs, out.total⟩

/-- The video material prototype: `materials["videos"][0] if materials.get("videos") else None`. -/
def videoMatProto (c : Content) : Option Material :=
  c.materials.videos.head?

/-- The audio material prototype: `materials["audios"][0] if materials.get("audios") else None`. -/
def audioMatProto (c : Content) : Option Material :=
  c.materials.audios.head?

/-- First segment of the first track of type `tt` with nonempty segments. -/
def trackSegProto (c : Content) (tt : TrackType) : Option Seg :=
  (c.tracks.find? fun t => t.type == tt && !t.segments.isEmpty).bind
    fun t => t.segments.head?

/-- Both video prototypes (material and track segment) were found; when this
fails `add_media_tracks` returns before touching the content. -/
def hasVideoProtos (c : Content) : Bool :=
  (videoMatProto c).isSome && (trackSegProto c TrackType.video).isSome

/-- Both audio prototypes were found (`if audio_proto and track_audio_proto`). -/
def hasAudioProtos (c : Content) : Bool :=
  (audioMatProto c).isSome && (trackSegProto c TrackType.audio).isSome

/-- The content after the destructive reset step of `add_media_tracks`:
video and audio material lists cleared, every video/audio track removed. -/
def clearedContent (c : Content) : Content :=
  { c with
    materials := { c.materials with videos := [], audios := [] },
    tracks := c.tracks.filter fun t =>
      !(t.type == TrackType.video) && !(t.type == TrackType.audio) }

/-- Embedding of `add_media_tracks`, as a function of the in-memory content and of the
resolved duration lists of the scanned audio and video files (the directory
scan and duration probing are I/O and happen upstream of this pure core).
Mirrors the source's control flow: missing video prototypes return the
content untouched; the reset runs before the empty-video-list check; the
new video track is appended before the new audio track; `duration` is set
to the final cursor only on the full path. -/
def addMediaTracks (c : Content) (audioDurs videoDurs : List ℤ) : Content :=
  match videoMatProto c, trackSegProto c TrackType.video with
  | some vm, some vs =>
    let cleared := clearedContent c
    if videoDurs.isEmpty then cleared
    else
      let out := seqLoop (hasAudioProtos c) ((audioMatProto c).getD default) vm
        ((trackSegProto c TrackType.audio).getD default) vs videoDurs audioDurs 0 0
      let tracks1 := if out.videoSegs.isEmpty then cleared.tracks
        else cleared.tracks ++ [⟨TrackType.video, out.videoSegs⟩]
      let tracks2 := if out.audioSegs.isEmpty then tracks1
        else tracks1 ++ [⟨TrackType.audio, out.audioSegs⟩]
      { materials := { cleared.materials with videos := out.videoMats, audios := out.audioMats },
        tracks := tracks2,
        duration := out.total }
  | _, _ => c

/-- All segments sitting on tracks of type `audio`, in track order (what
`process_subtitles` flattens into `audio_segments_flat`). -/
def audioTrackSegs (c : Content) : List Seg :=
  ((c.tracks.filter fun t => t.type == TrackType.audio).map Track.segments).flatten

/-- All segments sitting on tracks of type `video`, in track order. -/
def videoTrackSegs (c : Content) : List Seg :=
  ((c.tracks.filter fun t => t.type == TrackType.video).map Track.segments).flatten

/-- Sum of the first `n` entries of a duration list (the running cursor
`current_time_us` right before index `n` is processed). -/
def sumTake (l : List ℤ) (n : ℕ) : ℤ :=
  (l.take n).sum

/-! ### Caption Layout Engine (`process_subtitles`) -/

/-- The constant `FULL_WIDTH = 0.0580`. -/
def FULL_WIDTH : ℚ := 58 / 1000

/-- The constant `HALF_WIDTH = 0.0290`. -/
def HALF_WIDTH : ℚ := 29 / 1000

/-- Embedding of `get_char_width`: half width for ASCII (`ord(c) < 128`), full otherwise. -/
def getCharWidth (c : Char) : ℚ :=
  if c.toNat < 128 then HALF_WIDTH else FULL_WIDTH

/-- The constant `MAIN_Y = -0.4`. -/
def MAIN_Y : ℚ := -(4 / 10)

/-- The constant `LINE_HEIGHT = 0.2`. -/
def LINE_HEIGHT : ℚ := 2 / 10

/-- The constant `RUBY_Y_OFFSET = -1.185`. -/
def RUBY_Y_OFFSET : ℚ := -(1185 / 1000)

/-- The test `char_offset_global in yomi_map` / `yomi_map[char_offset_global]`:
lookup in the association list built by `mapYomigana`. -/
def yomiLookup (m : List (ℕ × (List Char × ℕ × ℕ))) (i : ℕ) :
    Option (List Char × ℕ × ℕ) :=
  (m.find? fun e => e.1 == i).map Prod.snd

/-- Embedding of `_add_text_segment_clone` (together with `_create_text_material`): clone
the prototype, overwrite content, timeranges, render index, and the fixed
main-caption transform. -/
def mkMainSeg (proto : Seg) (text : List Char) (startUs durUs : ℤ)
    (renderIndex : ℕ) : Seg :=
  { proto with
    content := text,
    targetStart := startUs, targetDuration := durUs,
    sourceStart := 0, sourceDuration := durUs,
    renderIndex := renderIndex,
    x := 5052 / 10000, y := 6944 / 10000, scaleX := 1, scaleY := 1 }

/-- Embedding of `_add_ruby_segment_clone`: clone the ruby prototype, overwrite content,
timeranges, render index, the computed transform, and the 0.6 scale. -/
def mkRubySeg (proto : Seg) (text : List Char) (startUs durUs : ℤ)
    (x y : ℚ) (renderIndex : ℕ) : Seg :=
  { proto with
    content := text,
    targetStart := startUs, targetDuration := durUs,
    sourceStart := 0, sourceDuration := durUs,
    renderIndex := renderIndex,
    x := x, y := y, scaleX := 6 / 10, scaleY := 6 / 10 }

/-- The `group_width` computation at a matched annotation: the widths of the
characters `line[char_i + k]` for `k < safe_span`, where
`safe_span = min(span_len, line_len - char_i)` truncates a span that would
run past the end of its wrapped line.  (`char_i < line.length` always holds
at the call sites, so the `getD` default is never read.) -/
def groupWidth (line : List Char) (charI spanLen : ℕ) : ℚ :=
  let safeSpan := min spanLen (line.length - charI)
  (List.range safeSpan).foldl (fun acc k => acc + getCharWidth (line.getD (charI + k) 'a')) 0

/-- The `for char_i, char in enumerate(line)` loop: walks the characters of
one wrapped line left to right, carrying the enumerate index `charI`, the
global character offset `offsetG` and the running left edge `currentX`; at
each offset present in the yomigana map it emits one ruby segment, tagged
with the span index `k_idx` it is grouped under. -/
def lineRubyLoop (protoRuby : Seg) (yomiMap : List (ℕ × (List Char × ℕ × ℕ)))
    (line : List Char) (baseY : ℚ) (startUs durUs : ℤ) (segCounter : ℕ) :
    List Char → ℕ → ℕ → ℚ → List (ℕ × Seg)
  | [], _, _, _ => []
  | c :: rest, charI, offsetG, currentX =>
    let cw := getCharWidth c
    let tail := lineRubyLoop protoRuby yomiMap line baseY startUs durUs segCounter
      rest (charI + 1) (offsetG + 1) (currentX + cw)
    match yomiLookup yomiMap offsetG with
    | some (rubyText, spanLen, kIdx) =>
      let gw := groupWidth line charI spanLen
      (kIdx,
        mkRubySeg protoRuby rubyText startUs durUs
          (currentX + gw / 2) (baseY - RUBY_Y_OFFSET) segCounter) :: tail
    | none => tail

/-- The `for line_idx, line in enumerate(lines)` loop: per wrapped line,
compute the stacked baseline `base_y`, the line's total visual width and the
centred left origin `0.5 - total/2`, then walk its characters. -/
def linesRubyLoop (protoRuby : Seg) (yomiMap : List (ℕ × (List Char × ℕ × ℕ)))
    (startY : ℚ) (startUs durUs : ℤ) (segCounter : ℕ) :
    List (List Char) → ℕ → ℕ → List (ℕ × Seg)
  | [], _, _ => []
  | line :: rest, lineIdx, offsetG =>
    let baseY := startY - lineIdx * LINE_HEIGHT
    let totalW := line.foldl (fun acc c => acc + getCharWidth c) 0
    let cur0 : ℚ := 1 / 2 - totalW / 2
    lineRubyLoop protoRuby yomiMap line baseY startUs durUs segCounter line 0 offsetG cur0
      ++ linesRubyLoop protoRuby yomiMap startY startUs durUs segCounter
           rest (lineIdx + 1) (offsetG + line.length)

/-- The body of `process_subtitles` for one subtitle record paired with audio
segment `aud` (already known to have positive duration): clean the text, map
the yomigana, wrap, emit the main segment and every ruby segment. -/
def processSub (protoMain protoRuby : Seg) (sub : SubRec) (aud : Seg)
    (segCounter : ℕ) : Seg × List (ℕ × Seg) :=
  let startUs := aud.targetStart
  let durUs := aud.targetDuration
  let cleanText := stripNewlines sub.text
  let yomiMap := mapYomigana cleanText sub.kanjis
  let lines := splitText cleanText
  let finalText := (lines.intersperse ['\n']).flatten
  let main := mkMainSeg protoMain finalText startUs durUs segCounter
  let startY := MAIN_Y + ((lines.length - 1 : ℕ) : ℚ) * LINE_HEIGHT * (1 / 2)
  (main, linesRubyLoop protoRuby yomiMap startY startUs durUs segCounter lines 0 0)

/-- The `for i, sub in enumerate(subtitles)` loop of `process_subtitles`:
a record beyond the audio segment list is skipped with a warning; a record
whose paired audio segment has non-positive duration is skipped; otherwise
one main segment and the line's ruby segments are emitted and `seg_counter`
(the render index of everything emitted for the line) advances by one. -/
def processLoop (protoMain protoRuby : Seg) (audioSegs : List Seg) :
    List SubRec → ℕ → ℕ → List Seg × List (ℕ × Seg)
  | [], _, _ => ([], [])
  | sub :: rest, i, segCounter =>
    match audioSegs[i]? with
    | none => processLoop protoMain protoRuby audioSegs rest (i + 1) segCounter
    | some aud =>
      if aud.targetDuration ≤ 0 then
        processLoop protoMain protoRuby audioSegs rest (i + 1) segCounter
      else
        let one := processSub protoMain protoRuby sub aud segCounter
        let restOut := processLoop protoMain protoRuby audioSegs rest (i + 1) (segCounter + 1)
        (one.1 :: restOut.1, one.2 ++ restOut.2)

/-- Embedding of `process_subtitles`, as a function of the subtitle records, the flattened
render-index-sorted audio segments (`audio_segments_flat`; for content built
by `add_media_tracks` the flat list is already sorted, so the sort is the
identity) and the main/ruby text prototypes extracted from the template.
Returns the new main-caption segments and the emitted ruby segments tagged
with their span index. -/
def processSubtitles (protoMain protoRuby : Seg) (subs : List SubRec)
    (audioSegs : List Seg) : List Seg × List (ℕ × Seg) :=
  processLoop protoMain protoRuby audioSegs subs 0 0

/-- The keys of `ruby_segments_by_idx` in ascending order
(`sorted(ruby_segments_by_idx.keys())`), computed by filtering a range —
`defaultdict` keys exist exactly for the span indices some segment was
appended under. -/
def rubyKeys (pairs : List (ℕ × Seg)) : List ℕ :=
  (List.range ((pairs.map Prod.fst).foldl max 0 + 1)).filter
    fun k => pairs.any fun p => p.1 == k

/-- The per-span-index grouping used to create one text track per annotation
slot: for each present key in ascending order, the segments appended under
it, in emission order. -/
def rubyGroups (pairs : List (ℕ × Seg)) : List (ℕ × List Seg) :=
  (rubyKeys pairs).map fun k => (k, (pairs.filter fun p => p.1 == k).map Prod.snd)

/-- The sequencer loop output as called by `addMediaTracks` (same prototype
arguments, starting index `0` and cursor `0`). -/
def seqOutOf (c : Content) (audioDurs videoDurs : List ℤ) : SeqOut :=
  seqLoop (hasAudioProtos c) ((audioMatProto c).getD default)
    ((videoMatProto c).getD default) ((trackSegProto c TrackType.audio).getD default)
    ((trackSegProto c TrackType.video).getD default) videoDurs audioDurs 0 0

/-! ### Sequencer lemmas -/

lemma sumTake_zero (l : List ℤ) : sumTake l 0 = 0 := by
  simp [sumTake]

lemma sumTake_cons_succ (d : ℤ) (l : List ℤ) (j : ℕ) :
    sumTake (d :: l) (j + 1) = d + sumTake l j := by
  simp [sumTake]

lemma sumTake_succ (l : List ℤ) (i : ℕ) (h : i < l.length) :
    sumTake l (i + 1) = sumTake l i + l.getD i 0 := by
  induction l generalizing i with
  | nil => simp at h
  | cons d rest ih =>
    cases i with
    | zero => simp [sumTake]
    | succ j =>
      rw [sumTake_cons_succ, sumTake_cons_succ, ih j (by simpa using h)]
      simp [add_assoc]

section SeqLoopLemmas

variable (am vm : Material) (aseg vseg : Seg) (V : List ℤ)

lemma seqLoop_audioSegs_length :
    ∀ (aD : List ℤ) (i : ℕ) (t : ℤ),
      ((seqLoop true am vm aseg vseg V aD i t).audioSegs).length = aD.length := by
  intro aD
  induction aD with
  | nil => intro i t; simp [seqLoop]
  | cons d rest ih => intro i t; simp [seqLoop, ih]

lemma seqLoop_videoSegs_length :
    ∀ (aD : List ℤ) (i : ℕ) (t : ℤ),
      ((seqLoop true am vm aseg vseg V aD i t).videoSegs).length = aD.length := by
  intro aD
  induction aD with
  | nil => intro i t; simp [seqLoop]
  | cons d rest ih => intro i t; simp [seqLoop, ih]

lemma seqLoop_videoMats_length :
    ∀ (aD : List ℤ) (i : ℕ) (t : ℤ),
      ((seqLoop true am vm aseg vseg V aD i t).videoMats).length = aD.length := by
  intro aD
  induction aD with
  | nil => intro i t; simp [seqLoop]
  | cons d rest ih => intro i t; simp [seqLoop, ih]

lemma seqLoop_total :
    ∀ (aD : List ℤ) (i : ℕ) (t : ℤ),
      (seqLoop true am vm aseg vseg V aD i t).total = t + aD.sum := by
  intro aD
  induction aD with
  | nil => intro i t; simp [seqLoop]
  | cons d rest ih =>
    intro i t
    simp [seqLoop, ih, add_assoc]

lemma seqLoop_audioSegs_getD :
    ∀ (aD : List ℤ) (i : ℕ) (t : ℤ) (j : ℕ), j < aD.length →
      (seqLoop true am vm aseg vseg V aD i t).audioSegs.getD j default =
        { aseg with
          sourceStart := 0, sourceDuration := aD.getD j 0,
          targetStart := t + sumTake aD j, targetDuration := aD.getD j 0,
          renderIndex := i + j } := by
  intro aD
  induction aD with
  | nil => intro i t j h; simp at h
  | cons d rest ih =>
    intro i t j h
    cases j with
    | zero => simp [seqLoop, sumTake_zero]
    | succ j =>
      have hj : j < rest.length := by simpa using h
      have step : (seqLoop true am vm aseg vseg V (d :: rest) i t).audioSegs =
          { aseg with
            sourceStart := 0, sourceDuration := d,
            targetStart := t, targetDuration := d, renderIndex := i } ::
          (seqLoop true am vm aseg vseg V rest (i + 1) (t + d)).audioSegs := by
        simp [seqLoop]
      rw [step, List.getD_cons_succ, ih (i + 1) (t + d) j hj, sumTake_cons_succ]
      simp [Seg.mk.injEq]
      constructor
      · ring
      · omega

lemma seqLoop_videoSegs_getD :
    ∀ (aD : List ℤ) (i : ℕ) (t : ℤ) (j : ℕ), j < aD.length →
      (seqLoop true am vm aseg vseg V aD i t).videoSegs.getD j default =
        { vseg with
          sourceStart := 0,
          sourceDuration := min (V.getD ((i + j) % V.length) 0) (aD.getD j 0),
          targetStart := t + sumTake aD j, targetDuration := aD.getD j 0,
          renderIndex := i + j } := by
  intro aD
  induction aD with
  | nil => intro i t j h; simp at h
  | cons d rest ih =>
    intro i t j h
    cases j with
    | zero => simp [seqLoop, sumTake_zero]
    | succ j =>
      have hj : j < rest.length := by simpa using h
      have step : (seqLoop true am vm aseg vseg V (d :: rest) i t).videoSegs =
          { vseg with
            sourceStart := 0,
            sourceDuration := min (V.getD (i % V.length) 0) d,
            targetStart := t, targetDuration := d, renderIndex := i } ::
          (seqLoop true am vm aseg vseg V rest (i + 1) (t + d)).videoSegs := by
        simp [seqLoop]
      rw [step, List.getD_cons_succ, ih (i + 1) (t + d) j hj, sumTake_cons_succ]
      have hidx : i + 1 + j = i + (j + 1) := by omega
      simp [Seg.mk.injEq, hidx]
      ring

lemma seqLoop_videoMats_getD :
    ∀ (aD : List ℤ) (i : ℕ) (t : ℤ) (j : ℕ), j < aD.length →
      (seqLoop true am vm aseg vseg V aD i t).videoMats.getD j default =
        { vm with duration := V.getD ((i + j) % V.length) 0 } := by
  intro aD
  induction aD with
  | nil => intro i t j h; simp at h
  | cons d rest ih =>
    intro i t j h
    cases j with
    | zero => simp [seqLoop]
    | succ j =>
      have hj : j < rest.length := by simpa using h
      have step : (seqLoop true am vm aseg vseg V (d :: rest) i t).videoMats =
          { vm with duration := V.getD (i % V.length) 0 } ::
          (seqLoop true am vm aseg vseg V rest (i + 1) (t + d)).videoMats := by
        simp [seqLoop]
      rw [step, List.getD_cons_succ, ih (i + 1) (t + d) j hj]
      have hidx : i + 1 + j = i + (j + 1) := by omega
      rw [hidx]

end SeqLoopLemmas

lemma clearedContent_filter_none (c : Content) (tt : TrackType)
    (htt : tt = TrackType.video ∨ tt = TrackType.audio) :
    (clearedContent c).tracks.filter (fun t => t.type == tt) = [] := by
  rw [List.filter_eq_nil_iff]
  intro t ht
  simp only [clearedContent, List.mem_filter, Bool.and_eq_true, Bool.not_eq_true',
    beq_eq_false_iff_ne, ne_eq] at ht
  rcases htt with h | h <;> simp [h, ht.2.1, ht.2.2]

lemma addMediaTracks_eq_full (c : Content) (aD vD : List ℤ)
    (hv : hasVideoProtos c = true) (ha : hasAudioProtos c = true)
    (haD : aD ≠ []) (hvD : vD ≠ []) :
    addMediaTracks c aD vD =
      { materials := { (clearedContent c).materials with
          videos := (seqOutOf c aD vD).videoMats,
          audios := (seqOutOf c aD vD).audioMats },
        tracks := (clearedContent c).tracks ++
          [⟨TrackType.video, (seqOutOf c aD vD).videoSegs⟩,
           ⟨TrackType.audio, (seqOutOf c aD vD).audioSegs⟩],
        duration := (seqOutOf c aD vD).total } := by
  obtain ⟨hm, hs⟩ := by simpa [hasVideoProtos, Bool.and_eq_true, Option.isSome_iff_exists] using hv
  obtain ⟨vm, hvm⟩ := hm
  obtain ⟨vs, hvs⟩ := hs
  have hsq : seqOutOf c aD vD =
      seqLoop (hasAudioProtos c) ((audioMatProto c).getD default) vm
        ((trackSegProto c TrackType.audio).getD default) vs vD aD 0 0 := by
    simp [seqOutOf, hvm, hvs]
  have hVempty : vD.isEmpty = false := by
    cases vD with
    | nil => exact absurd rfl hvD
    | cons x xs => rfl
  have hASlen : (seqOutOf c aD vD).audioSegs.length = aD.length := by
    rw [hsq, ha]; exact seqLoop_audioSegs_length _ _ _ _ _ aD 0 0
  have hVSlen : (seqOutOf c aD vD).videoSegs.length = aD.length := by
    rw [hsq, ha]; exact seqLoop_videoSegs_length _ _ _ _ _ aD 0 0
  have hAne : (seqOutOf c aD vD).audioSegs.isEmpty = false := by
    cases hx : (seqOutOf c aD vD).audioSegs with
    | nil => rw [hx] at hASlen; exact absurd (List.length_eq_zero.mp hASlen.symm) haD
    | cons y ys => rfl
  have hVne : (seqOutOf c aD vD).videoSegs.isEmpty = false := by
    cases hx : (seqOutOf c aD vD).videoSegs with
    | nil => rw [hx] at hVSlen; exact absurd (List.length_eq_zero.mp hVSlen.symm) haD
    | cons y ys => rfl
  simp only [addMediaTracks, hvm, hvs, hVempty, Bool.false_eq_true, if_false, ← hsq,
    hAne, hVne]
  simp [clearedContent, List.append_assoc]

lemma addMediaTracks_audioTrackSegs (c : Content) (aD vD : List ℤ)
    (hv : hasVideoProtos c = true) (ha : hasAudioProtos c = true)
    (haD : aD ≠ []) (hvD : vD ≠ []) :
    audioTrackSegs (addMediaTracks c aD vD) = (seqOutOf c aD vD).audioSegs := by
  rw [addMediaTracks_eq_full c aD vD hv ha haD hvD]
  simp [audioTrackSegs, List.filter_append,
    clearedContent_filter_none c TrackType.audio (Or.inr rfl)]

lemma addMediaTracks_videoTrackSegs (c : Content) (aD vD : List ℤ)
    (hv : hasVideoProtos c = true) (ha : hasAudioProtos c = true)
    (haD : aD ≠ []) (hvD : vD ≠ []) :
    videoTrackSegs (addMediaTracks c aD vD) = (seqOutOf c aD vD).videoSegs := by
  rw [addMediaTracks_eq_full c aD vD hv ha haD hvD]
  simp [videoTrackSegs, List.filter_append,
    clearedContent_filter_none c TrackType.video (Or.inl rfl)]

lemma seqOutOf_rw (c : Content) (aD vD : List ℤ) (ha : hasAudioProtos c = true) :
    seqOutOf c aD vD =
      seqLoop true ((audioMatProto c).getD default) ((videoMatProto c).getD default)
        ((trackSegProto c TrackType.audio).getD default)
        ((trackSegProto c TrackType.video).getD default) vD aD 0 0 := by
  rw [seqOutOf, ha]

/-- A concrete template content holding one video, one audio and one text
prototype track plus matching prototype materials, used to instantiate
hypotheses at concrete inputs. -/
def tmplContent : Content :=
  { materials := { videos := [{ duration := 11 }], audios := [{ duration := 22 }],
                   texts := [default, default] },
    tracks := [⟨TrackType.video, [default]⟩, ⟨TrackType.audio, [default]⟩,
               ⟨TrackType.text, [default]⟩, ⟨TrackType.text, [default]⟩],
    duration := 999 }

/-- C1 — Gapless audio invariant: for a template carrying video and audio
prototypes, a non-empty resolved audio duration list and a non-empty video
list, the audio track written by `add_media_tracks` starts at time 0 and
every later segment's target start equals the previous segment's target
start plus its target duration: audio segments are strictly back-to-back.  -/
theorem audio_track_gapless (c : Content) (aD vD : List ℤ)
    (hv : hasVideoProtos c = true) (ha : hasAudioProtos c = true)
    (haD : aD ≠ []) (hvD : vD ≠ []) :
    ((audioTrackSegs (addMediaTracks c aD vD)).getD 0 default).targetStart = 0 ∧
    ∀ i : ℕ, i + 1 < (audioTrackSegs (addMediaTracks c aD vD)).length →
      ((audioTrackSegs (addMediaTracks c aD vD)).getD (i + 1) default).targetStart =
        ((audioTrackSegs (addMediaTracks c aD vD)).getD i default).targetStart +
          ((audioTrackSegs (addMediaTracks c aD vD)).getD i default).targetDuration := by
  rw [addMediaTracks_audioTrackSegs c aD vD hv ha haD hvD, seqOutOf_rw c aD vD ha]
  have hlen := seqLoop_audioSegs_length ((audioMatProto c).getD default)
    ((videoMatProto c).getD default) ((trackSegProto c TrackType.audio).getD default)
    ((trackSegProto c TrackType.video).getD default) vD aD 0 0
  constructor
  · have h0 : 0 < aD.length := List.length_pos.mpr haD
    rw [seqLoop_audioSegs_getD _ _ _ _ _ aD 0 0 0 h0]
    simp [sumTake_zero]
  · intro i hi
    rw [hlen] at hi
    rw [seqLoop_audioSegs_getD _ _ _ _ _ aD 0 0 (i + 1) hi,
      seqLoop_audioSegs_getD _ _ _ _ _ aD 0 0 i (by omega)]
    simp [sumTake_succ aD i (by omega)]

/-- Witness for C1 at the spec's concrete scenario (3 audio durations, 2
video durations). -/
theorem audio_track_gapless_witness :
    ((audioTrackSegs (addMediaTracks tmplContent [5000000, 3000000, 4000000]
        [10000000, 2000000])).getD 0 default).targetStart = 0 ∧
    ((audioTrackSegs (addMediaTracks tmplContent [5000000, 3000000, 4000000]
        [10000000, 2000000])).getD 1 default).targetStart =
      ((audioTrackSegs (addMediaTracks tmplContent [5000000, 3000000, 4000000]
          [10000000, 2000000])).getD 0 default).targetStart +
        ((audioTrackSegs (addMediaTracks tmplContent [5000000, 3000000, 4000000]
            [10000000, 2000000])).getD 0 default).targetDuration := by
  have h := audio_track_gapless tmplContent [5000000, 3000000, 4000000]
    [10000000, 2000000] (by decide) (by decide) (by decide) (by decide)
  exact ⟨h.1, h.2 0 (by decide)⟩

/-- C2 — Duration conservation: for a template carrying video and audio
prototypes and non-empty audio and video lists, the total project duration
written by `add_media_tracks` equals the sum of the resolved audio clip
durations. -/
theorem total_duration_conservation (c : Content) (aD vD : List ℤ)
    (hv : hasVideoProtos c = true) (ha : hasAudioProtos c = true)
    (haD : aD ≠ []) (hvD : vD ≠ []) :
    (addMediaTracks c aD vD).duration = aD.sum := by
  rw [addMediaTracks_eq_full c aD vD hv ha haD hvD]
  show (seqOutOf c aD vD).total = aD.sum
  rw [seqOutOf_rw c aD vD ha, seqLoop_total]
  simp

/-- Witness for C2 at the spec's concrete scenario. -/
theorem total_duration_conservation_witness :
    (addMediaTracks tmplContent [5000000, 3000000, 4000000]
      [10000000, 2000000]).duration = 12000000 :=
  total_duration_conservation tmplContent [5000000, 3000000, 4000000]
    [10000000, 2000000] (by decide) (by decide) (by decide) (by decide)

/-- C3 — Video trim and cyclic reuse: audio index `i` is paired with the
video clip at index `i mod len(videoClips)` (its resolved duration is the
duration written to the `i`-th new video material); the `i`-th video segment
covers source range `{0, min(videoClipDuration, pairedAudioClipDuration)}`
and target range exactly `{t_i, pairedAudioClipDuration}`, where the cursor
`t_i` is the sum of the first `i` audio durations; exactly one video segment
is emitted per audio index. -/
theorem video_trim_cyclic (c : Content) (aD vD : List ℤ)
    (hv : hasVideoProtos c = true) (ha : hasAudioProtos c = true)
    (haD : aD ≠ []) (hvD : vD ≠ []) :
    (videoTrackSegs (addMediaTracks c aD vD)).length = aD.length ∧
    ((addMediaTracks c aD vD).materials.videos).length = aD.length ∧
    ∀ i : ℕ, i < aD.length →
      ((videoTrackSegs (addMediaTracks c aD vD)).getD i default).sourceStart = 0 ∧
      ((videoTrackSegs (addMediaTracks c aD vD)).getD i default).sourceDuration =
        min (vD.getD (i % vD.length) 0) (aD.getD i 0) ∧
      ((videoTrackSegs (addMediaTracks c aD vD)).getD i default).targetStart =
        sumTake aD i ∧
      ((videoTrackSegs (addMediaTracks c aD vD)).getD i default).targetDuration =
        aD.getD i 0 ∧
      (((addMediaTracks c aD vD).materials.videos).getD i default).duration =
        vD.getD (i % vD.length) 0 := by
  have hmats : (addMediaTracks c aD vD).materials.videos = (seqOutOf c aD vD).videoMats := by
    rw [addMediaTracks_eq_full c aD vD hv ha haD hvD]
  rw [addMediaTracks_videoTrackSegs c aD vD hv ha haD hvD, hmats,
    seqOutOf_rw c aD vD ha]
  refine ⟨seqLoop_videoSegs_length _ _ _ _ _ aD 0 0,
    seqLoop_videoMats_length _ _ _ _ _ aD 0 0, ?_⟩
  intro i hi
  rw [seqLoop_videoSegs_getD _ _ _ _ _ aD 0 0 i hi,
    seqLoop_videoMats_getD _ _ _ _ _ aD 0 0 i hi]
  simp

/-- Witness for C3 at the spec's concrete scenario, checking index 1 (the
cyclically reused, shorter-than-audio video clip). -/
theorem video_trim_cyclic_witness :
    ((videoTrackSegs (addMediaTracks tmplContent [5000000, 3000000, 4000000]
        [10000000, 2000000])).getD 1 default).sourceDuration =
      min (2000000 : ℤ) 3000000 ∧
    ((videoTrackSegs (addMediaTracks tmplContent [5000000, 3000000, 4000000]
        [10000000, 2000000])).getD 1 default).targetStart =
      sumTake [5000000, 3000000, 4000000] 1 := by
  have h := (video_trim_cyclic tmplContent [5000000, 3000000, 4000000]
    [10000000, 2000000] (by decide) (by decide) (by decide) (by decide)).2.2 1 (by decide)
  exact ⟨h.2.1, h.2.2.1⟩

/-- C10 — Non-atomic empty-video abort: with the template's video prototypes
present but an empty scanned video list, `add_media_tracks` returns without
appending any segment, yet only after the destructive reset has run: the
video and audio material lists are cleared, every video and audio track is
removed, and the top-level `duration` keeps its previous template value. -/
theorem empty_videos_partial_reset (c : Content) (aD : List ℤ)
    (hv : hasVideoProtos c = true) :
    addMediaTracks c aD [] = clearedContent c ∧
    (addMediaTracks c aD []).duration = c.duration ∧
    (addMediaTracks c aD []).materials.videos = [] ∧
    (addMediaTracks c aD []).materials.audios = [] ∧
    (addMediaTracks c aD []).tracks = c.tracks.filter
      (fun t => !(t.type == TrackType.video) && !(t.type == TrackType.audio)) := by
  obtain ⟨hm, hs⟩ := by simpa [hasVideoProtos, Bool.and_eq_true, Option.isSome_iff_exists] using hv
  obtain ⟨vm, hvm⟩ := hm
  obtain ⟨vs, hvs⟩ := hs
  have h : addMediaTracks c aD [] = clearedContent c := by
    simp [addMediaTracks, hvm, hvs]
  refine ⟨h, ?_, ?_, ?_, ?_⟩ <;> rw [h] <;> rfl

/-- Witness for C10 on the concrete template (which has two media tracks,
two text tracks and a nonzero template duration). -/
theorem empty_videos_partial_reset_witness :
    addMediaTracks tmplContent [5, 7] [] = clearedContent tmplContent ∧
    (addMediaTracks tmplContent [5, 7] []).duration = 999 ∧
    (addMediaTracks tmplContent [5, 7] []).tracks =
      [⟨TrackType.text, [default]⟩, ⟨TrackType.text, [default]⟩] := by
  have h := empty_videos_partial_reset tmplContent [5, 7] (by decide)
  exact ⟨h.1, h.2.1, by rw [h.2.2.2.2]; decide⟩

/-! ### Text Wrapper lemmas -/

/-- The line-length profile of greedy 16-character filling of `n` characters:
full 16-character lines followed by the final partial line. -/
def chunkLens (n : ℕ) : List ℕ :=
  if h : n ≤ 16 then [n] else 16 :: chunkLens (n - 16)
termination_by n
decreasing_by omega

lemma chunkLens_ne_nil (n : ℕ) : chunkLens n ≠ [] := by
  rw [chunkLens]
  split <;> simp

lemma chunkLens_mem (n : ℕ) (hn : 1 ≤ n) : ∀ x ∈ chunkLens n, 1 ≤ x ∧ x ≤ 16 := by
  induction n using Nat.strong_induction_on with
  | _ n ih =>
    intro x hx
    rw [chunkLens] at hx
    by_cases h : n ≤ 16
    · rw [dif_pos h] at hx
      simp at hx
      omega
    · rw [dif_neg h] at hx
      rcases List.mem_cons.mp hx with h16 | htail
      · omega
      · exact ih (n - 16) (by omega) (by omega) x htail

lemma chunkLens_getD_16 (n : ℕ) :
    ∀ j : ℕ, j + 1 < (chunkLens n).length → (chunkLens n).getD j 0 = 16 := by
  induction n using Nat.strong_induction_on with
  | _ n ih =>
    intro j hj
    rw [chunkLens] at hj ⊢
    by_cases h : n ≤ 16
    · rw [dif_pos h] at hj
      simp at hj
    · rw [dif_neg h] at hj ⊢
      cases j with
      | zero => rfl
      | succ j =>
        rw [List.getD_cons_succ]
        exact ih (n - 16) (by omega) j (by simpa using hj)

lemma getLastD_mem {α : Type} (l : List α) (d : α) (h : l ≠ []) : l.getLastD d ∈ l := by
  induction l generalizing d with
  | nil => exact absurd rfl h
  | cons a l ih =>
    rw [List.getLastD_cons]
    cases l with
    | nil => simp
    | cons b l' => exact List.mem_cons_of_mem a (ih a (by simp))

lemma map_length_getD (l : List (List Char)) :
    ∀ j : ℕ, j < l.length → (l.map List.length).getD j 0 = (l.getD j []).length := by
  induction l with
  | nil => intro j hj; simp at hj
  | cons a l ih =>
    intro j hj
    cases j with
    | zero => rfl
    | succ j => simpa using ih j (by simpa using hj)

lemma map_length_getLastD (l : List (List Char)) (h : l ≠ []) :
    (l.map List.length).getLastD 0 = (l.getLastD []).length := by
  induction l with
  | nil => exact absurd rfl h
  | cons a l ih =>
    cases l with
    | nil => rfl
    | cons b l' => simpa [List.getLastD_cons] using ih (by simp)

lemma splitGo_mapLen :
    ∀ (cs cur : List Char), 1 ≤ cur.length → cur.length ≤ 16 →
      (splitGo cs cur).map List.length = chunkLens (cur.length + cs.length) := by
  intro cs
  induction cs with
  | nil =>
    intro cur h1 h16
    have hne : cur.isEmpty = false := by
      cases cur with
      | nil => simp at h1
      | cons a l => rfl
    rw [splitGo, hne, chunkLens]
    simp [dif_pos (by simpa using h16)]
  | cons c cs ih =>
    intro cur h1 h16
    by_cases hlt : cur.length < 16
    · rw [splitGo, if_pos hlt, ih (cur ++ [c]) (by simp) (by simp; omega)]
      have harith : (cur ++ [c]).length + cs.length = cur.length + (c :: cs).length := by
        simp; omega
      rw [harith]
    · have hl : cur.length = 16 := by omega
      rw [splitGo, if_neg hlt, List.map_cons, ih [c] (by simp) (by simp), hl]
      have hgt : ¬(16 + (c :: cs).length ≤ 16) := by simp
      conv_rhs => rw [chunkLens]
      rw [dif_neg hgt]
      have harith : 16 + (c :: cs).length - 16 = [c].length + cs.length := by
        simp
        omega
      rw [harith]

lemma splitText_mapLen (t : List Char) :
    (splitText t).map List.length = chunkLens (stripNewlines t).length := by
  rw [splitText]
  by_cases h : (stripNewlines t).length ≤ 16
  · rw [if_pos h, chunkLens, dif_pos h]
    rfl
  · rw [if_neg h]
    cases hx : stripNewlines t with
    | nil => rw [hx] at h; simp at h
    | cons c cs =>
      have step : splitGo (c :: cs) [] = splitGo cs [c] := by
        rw [splitGo]
        rfl
      rw [step, splitGo_mapLen cs [c] (by simp) (by simp)]
      simp
      congr 1
      omega

lemma splitGo_flatten : ∀ (cs cur : List Char), (splitGo cs cur).flatten = cur ++ cs := by
  intro cs
  induction cs with
  | nil =>
    intro cur
    cases cur with
    | nil => rfl
    | cons a l => simp [splitGo]
  | cons c cs ih =>
    intro cur
    by_cases hlt : cur.length < 16
    · rw [splitGo, if_pos hlt, ih (cur ++ [c])]
      simp
    · rw [splitGo, if_neg hlt]
      simp [ih [c]]

lemma splitText_ne_nil (t : List Char) : splitText t ≠ [] := by
  intro hx
  have := splitText_mapLen t
  rw [hx] at this
  exact chunkLens_ne_nil _ this.symm

/-- C5 — Text Wrapper contract: `_split_text` first removes every manual
line-break character, then greedily fills 16-character lines: the wrapped
lines concatenate back to the cleaned text, every line but the last has
exactly 16 characters, the final partial line of 1..16 characters is always
included when the cleaned text is nonempty, an input whose cleaned text is
empty yields the single empty line, and a 20-character cleaned input yields
exactly two lines of 16 and 4 characters. -/
theorem text_wrapper_contract (t : List Char) :
    (splitText t).flatten = stripNewlines t ∧
    (∀ j : ℕ, j + 1 < (splitText t).length → ((splitText t).getD j []).length = 16) ∧
    (stripNewlines t ≠ [] →
      1 ≤ ((splitText t).getLastD []).length ∧ ((splitText t).getLastD []).length ≤ 16) ∧
    (stripNewlines t = [] → splitText t = [[]]) ∧
    ((stripNewlines t).length = 20 → (splitText t).map List.length = [16, 4]) := by
  have hmap := splitText_mapLen t
  have hlen : (splitText t).length = (chunkLens (stripNewlines t).length).length := by
    rw [← hmap, List.length_map]
  refine ⟨?_, ?_, ?_, ?_, ?_⟩
  · rw [splitText]
    by_cases h : (stripNewlines t).length ≤ 16
    · rw [if_pos h]; simp
    · rw [if_neg h, splitGo_flatten]; rfl
  · intro j hj
    rw [← map_length_getD (splitText t) j (by omega), hmap]
    exact chunkLens_getD_16 _ j (by omega)
  · intro hne
    have h1 : 1 ≤ (stripNewlines t).length := by
      cases hx : stripNewlines t with
      | nil => exact absurd hx hne
      | cons a l => simp
    have hmem := getLastD_mem (chunkLens (stripNewlines t).length) 0 (chunkLens_ne_nil _)
    have := chunkLens_mem _ h1 _ hmem
    rwa [← hmap, map_length_getLastD _ (splitText_ne_nil t)] at this
  · intro hempty
    rw [splitText, hempty]
    simp
  · intro h20
    rw [hmap, h20]
    rw [chunkLens]
    norm_num
    rw [chunkLens]
    norm_num

/-- Witness for C5 at a concrete 20-character input. -/
theorem text_wrapper_contract_witness :
    (splitText "abcdefghijklmnopqrst".data).map List.length = [16, 4] ∧
    1 ≤ ((splitText "abcdefghijklmnopqrst".data).getLastD []).length := by
  have h := text_wrapper_contract "abcdefghijklmnopqrst".data
  exact ⟨h.2.2.2.2 (by decide), (h.2.2.1 (by decide)).1⟩

/-! ### Annotation Mapper theorems -/

/-- C6 — Annotation offset correctness: on the cleaned text
今日は良い天気です with spans (今日, きょう) and (天気, てんき),
`_map_yomigana` produces exactly the mapping
0 to (きょう, 2, 0) and 5 to (てんき, 2, 1); and in general a span
matched at offset `idx` with surface length `L` records
`mapping[idx] = (reading, L, spanIndex)` and advances the scan cursor to
`idx + L`, the remaining spans being searched only from there. -/
theorem annotation_offset_correctness :
    mapYomigana "今日は良い天気です".data
        [("今日".data, "きょう".data), ("天気".data, "てんき".data)] =
      [(0, ("きょう".data, 2, 0)), (5, ("てんき".data, 2, 1))] ∧
    ∀ (text : List Char) (span : List Char × List Char)
      (rest : List (List Char × List Char)) (kPtr tPtr idx : ℕ),
      tPtr < text.length → findFrom text span.1 tPtr = some idx →
        mapYomiganaGo text (span :: rest) kPtr tPtr =
          (idx, (span.2, span.1.length, kPtr)) ::
            mapYomiganaGo text rest (kPtr + 1) (idx + span.1.length) := by
  constructor
  · decide
  · intro text span rest kPtr tPtr idx hlt hfind
    rw [mapYomiganaGo, if_pos hlt, hfind]

/-- Witness for C6's general clause at a concrete two-character text. -/
theorem annotation_offset_correctness_witness :
    mapYomiganaGo "ab".data [("b".data, "B".data)] 5 0 =
      (1, ("B".data, 1, 5)) :: mapYomiganaGo "ab".data [] 6 2 :=
  annotation_offset_correctness.2 "ab".data ("b".data, "B".data) [] 5 0 1
    (by decide) (by decide)

/-- C7 — Sparse span-index tolerance: a span whose surface text is not
found from the cursor onward is dropped while the span-index counter still
advances, so a matching later span keeps its original index (the second
span records span index 1 even when the first span failed), and the
by-index ruby grouping keys preserve the resulting gap instead of
compacting it (the group keys are exactly the indices that matched). -/
theorem sparse_span_index_tolerance :
    (∀ (text : List Char) (span : List Char × List Char)
      (rest : List (List Char × List Char)) (kPtr tPtr : ℕ),
      tPtr < text.length → findFrom text span.1 tPtr = none →
        mapYomiganaGo text (span :: rest) kPtr tPtr =
          mapYomiganaGo text rest (kPtr + 1) tPtr) ∧
    mapYomigana "abc".data [("x".data, "X".data), ("b".data, "B".data)] =
      [(1, ("B".data, 1, 1))] ∧
    (rubyGroups (processSubtitles default default
        [{ text := "abc".data, kanjis := [("x".data, "X".data), ("b".data, "B".data)] }]
        [{ targetStart := 0, targetDuration := 1000000 }]).2).map Prod.fst = [1] := by
  refine ⟨?_, by decide, by decide⟩
  intro text span rest kPtr tPtr hlt hfind
  rw [mapYomiganaGo, if_pos hlt, hfind]

/-- Witness for C7's general clause: the failing first span of the
concrete example is skipped with the counter advanced. -/
theorem sparse_span_index_tolerance_witness :
    mapYomiganaGo "abc".data [("x".data, "X".data), ("b".data, "B".data)] 0 0 =
      mapYomiganaGo "abc".data [("b".data, "B".data)] 1 0 :=
  sparse_span_index_tolerance.1 "abc".data ("x".data, "X".data)
    [("b".data, "B".data)] 0 0 (by decide) (by decide)

/-! ### Duration Resolver theorems -/

/-- C9 counterexample: for a probed duration of 1.7e-6 seconds (exactly
17/10^7, a value for which every rounding convention on 1.7 agrees and the
double-precision product also lies strictly between 1.5 and 2),
`_get_media_duration` returns `int(1.7) = 1`, while the spec's stated
`round(seconds * 1_000_000)` is 2 — the code truncates, it does not round. -/
theorem duration_resolver_round_counterexample :
    getMediaDuration (some (17 / 10000000)) none = 1 ∧
    resolveSpecRound (some (17 / 10000000)) none = 2 ∧
    getMediaDuration (some (17 / 10000000)) none ≠
      resolveSpecRound (some (17 / 10000000)) none := by
  have h1 : getMediaDuration (some (17 / 10000000)) none = 1 := by
    show pyInt ((17 / 10000000 : ℚ) * 1000000) = 1
    rw [pyInt, if_pos (by norm_num)]
    rw [show (17 / 10000000 : ℚ) * 1000000 = 17 / 10 by norm_num]
    rw [Int.floor_eq_iff]
    norm_num
  have h2 : resolveSpecRound (some (17 / 10000000)) none = 2 := by
    show round ((17 / 10000000 : ℚ) * 1000000) = 2
    rw [show (17 / 10000000 : ℚ) * 1000000 = 17 / 10 by norm_num]
    rw [round_eq, show (17 / 10 : ℚ) + 1 / 2 = 11 / 5 by norm_num]
    rw [Int.floor_eq_iff]
    norm_num
  exact ⟨h1, h2, by rw [h1, h2]; decide⟩

/-- C9 amended — Duration Resolver truncation: when probing reports `s`
seconds the resolver returns `int(s * 1_000_000)` truncated toward zero
(the floor, since reported durations are nonnegative); the metadata
fallback converts its reported length the same way; when both strategies
fail the resolver returns 0. -/
theorem duration_resolver_trunc (s l : ℚ) (m : Option ℚ)
    (hs : 0 ≤ s) (hl : 0 ≤ l) :
    getMediaDuration (some s) m = ⌊s * 1000000⌋ ∧
    getMediaDuration none (some l) = ⌊l * 1000000⌋ ∧
    getMediaDuration none none = 0 := by
  refine ⟨?_, ?_, rfl⟩
  · show pyInt (s * 1000000) = ⌊s * 1000000⌋
    rw [pyInt, if_pos (mul_nonneg hs (by norm_num))]
  · show pyInt (l * 1000000) = ⌊l * 1000000⌋
    rw [pyInt, if_pos (mul_nonneg hl (by norm_num))]

/-- Witness for C9's amended claim at concrete reported durations. -/
theorem duration_resolver_trunc_witness :
    getMediaDuration (some (17 / 10000000)) none = ⌊(17 / 10000000 : ℚ) * 1000000⌋ ∧
    getMediaDuration none (some (5 / 2)) = ⌊(5 / 2 : ℚ) * 1000000⌋ :=
  ⟨(duration_resolver_trunc (17 / 10000000) (5 / 2) none (by norm_num) (by norm_num)).1,
   (duration_resolver_trunc (17 / 10000000) (5 / 2) none (by norm_num) (by norm_num)).2.1⟩

/-! ### Caption Layout Engine lemmas -/

/-- Subtitle index `i` "qualifies" for emission: a paired audio segment
exists and its target duration is positive (the loop skips the record
otherwise). -/
def qualifies (A : List Seg) (i : ℕ) : Bool :=
  match A[i]? with
  | none => false
  | some a => decide (0 < a.targetDuration)

/-- The subtitle indices below `n` that qualify, in order. -/
def qualifyingIdxs (n : ℕ) (A : List Seg) : List ℕ :=
  (List.range n).filter (qualifies A)

/-- The qualifying indices among `i, i+1, ..., i+n-1`. -/
def qualsFrom (A : List Seg) (i n : ℕ) : List ℕ :=
  (List.range' i n).filter (qualifies A)

/-- Projection of `processLoop` onto the emitted main segments. -/
def mainsGo (pM : Seg) (A : List Seg) : List SubRec → ℕ → ℕ → List Seg
  | [], _, _ => []
  | sub :: rest, i, k =>
    match A[i]? with
    | none => mainsGo pM A rest (i + 1) k
    | some aud =>
      if aud.targetDuration ≤ 0 then mainsGo pM A rest (i + 1) k
      else
        mkMainSeg pM ((splitText (stripNewlines sub.text)).intersperse ['\n']).flatten
            aud.targetStart aud.targetDuration k ::
          mainsGo pM A rest (i + 1) (k + 1)

lemma processLoop_fst (pM pR : Seg) (A : List Seg) :
    ∀ (subs : List SubRec) (i k : ℕ),
      (processLoop pM pR A subs i k).1 = mainsGo pM A subs i k := by
  intro subs
  induction subs with
  | nil => intro i k; rfl
  | cons sub rest ih =>
    intro i k
    rw [processLoop, mainsGo]
    cases hA : A[i]? with
    | none => exact ih (i + 1) k
    | some aud =>
      by_cases hdur : aud.targetDuration ≤ 0
      · simp only [if_pos hdur]
        exact ih (i + 1) k
      · simp only [if_neg hdur, processSub]
        rw [ih (i + 1) (k + 1)]

lemma qualsFrom_zero (A : List Seg) (i : ℕ) : qualsFrom A i 0 = [] := by
  simp [qualsFrom]

lemma qualsFrom_succ_pos (A : List Seg) (i n : ℕ) (h : qualifies A i = true) :
    qualsFrom A i (n + 1) = i :: qualsFrom A (i + 1) n := by
  rw [qualsFrom, List.range'_succ, List.filter_cons, if_pos h, qualsFrom]

lemma qualsFrom_succ_neg (A : List Seg) (i n : ℕ) (h : qualifies A i = false) :
    qualsFrom A i (n + 1) = qualsFrom A (i + 1) n := by
  rw [qualsFrom, List.range'_succ, List.filter_cons, h, qualsFrom]
  simp

lemma mainsGo_length (pM : Seg) (A : List Seg) :
    ∀ (subs : List SubRec) (i k : ℕ),
      (mainsGo pM A subs i k).length = (qualsFrom A i subs.length).length := by
  intro subs
  induction subs with
  | nil => intro i k; simp [mainsGo, qualsFrom_zero]
  | cons sub rest ih =>
    intro i k
    rw [mainsGo, List.length_cons]
    cases hA : A[i]? with
    | none =>
      have hq : qualifies A i = false := by simp [qualifies, hA]
      rw [qualsFrom_succ_neg A i rest.length hq]
      exact ih (i + 1) k
    | some aud =>
      by_cases hdur : aud.targetDuration ≤ 0
      · have hq : qualifies A i = false := by
          simp only [qualifies, hA, decide_eq_false_iff_not, not_lt]
          exact hdur
        simp only [if_pos hdur]
        rw [qualsFrom_succ_neg A i rest.length hq]
        exact ih (i + 1) k
      · have hq : qualifies A i = true := by
          simp only [qualifies, hA, decide_eq_true_eq]
          omega
        simp only [if_neg hdur]
        rw [qualsFrom_succ_pos A i rest.length hq]
        simp only [List.length_cons]
        rw [ih (i + 1) (k + 1)]

lemma mainsGo_props (pM : Seg) (A : List Seg) :
    ∀ (subs : List SubRec) (i k j : ℕ), j < (qualsFrom A i subs.length).length →
      ((mainsGo pM A subs i k).getD j default).targetStart =
        (A.getD ((qualsFrom A i subs.length).getD j 0) default).targetStart ∧
      ((mainsGo pM A subs i k).getD j default).targetDuration =
        (A.getD ((qualsFrom A i subs.length).getD j 0) default).targetDuration ∧
      ((mainsGo pM A subs i k).getD j default).renderIndex = k + j := by
  intro subs
  induction subs with
  | nil => intro i k j hj; rw [List.length_nil, qualsFrom_zero] at hj; simp at hj
  | cons sub rest ih =>
    intro i k j hj
    rw [List.length_cons] at hj ⊢
    rw [mainsGo]
    cases hA : A[i]? with
    | none =>
      have hq : qualifies A i = false := by simp [qualifies, hA]
      rw [qualsFrom_succ_neg A i rest.length hq] at hj ⊢
      exact ih (i + 1) k j hj
    | some aud =>
      by_cases hdur : aud.targetDuration ≤ 0
      · have hq : qualifies A i = false := by
          simp only [qualifies, hA, decide_eq_false_iff_not, not_lt]
          exact hdur
        simp only [if_pos hdur]
        rw [qualsFrom_succ_neg A i rest.length hq] at hj ⊢
        exact ih (i + 1) k j hj
      · have hq : qualifies A i = true := by
          simp only [qualifies, hA, decide_eq_true_eq]
          omega
        simp only [if_neg hdur]
        rw [qualsFrom_succ_pos A i rest.length hq] at hj ⊢
        cases j with
        | zero =>
          simp [mkMainSeg, List.getD_eq_getElem?_getD, hA]
        | succ j =>
          simp only [List.getD_cons_succ]
          have := ih (i + 1) (k + 1) j (by simpa using hj)
          refine ⟨this.1, this.2.1, ?_⟩
          rw [this.2.2]
          omega

lemma processLoop_hint_blind (pM pR : Seg) (A : List Seg) :
    ∀ (subs : List SubRec) (i k : ℕ),
      processLoop pM pR A (subs.map fun s =>
        { s with startHint := [], endHint := [] }) i k =
      processLoop pM pR A subs i k := by
  intro subs
  induction subs with
  | nil => intro i k; rfl
  | cons sub rest ih =>
    intro i k
    rw [List.map_cons, processLoop, processLoop]
    cases hA : A[i]? with
    | none => exact ih (i + 1) k
    | some aud =>
      by_cases hdur : aud.targetDuration ≤ 0
      · simp only [if_pos hdur]
        exact ih (i + 1) k
      · simp only [if_neg hdur, processSub]
        rw [ih (i + 1) (k + 1)]

/-- C4 counterexample input: two subtitle records whose first paired audio
segment has zero duration and whose second has positive duration. -/
def zeroDurSubs : List SubRec := [{ text := "a".data }, { text := "b".data }]

/-- C4 counterexample audio segments. -/
def zeroDurAuds : List Seg :=
  [{ targetStart := 0, targetDuration := 0 },
   { targetStart := 0, targetDuration := 7000000 }]

/-- C4 counterexample: subtitle index 1 qualifies (its paired audio segment
has positive duration 7000000), yet the single main-caption segment emitted
for it carries render index 0 — not 1, as the claim's `renderIndex = i`
requires — because `seg_counter` counts emitted lines, not subtitle indices,
and line 0 was skipped for zero duration. -/
theorem main_caption_renderIndex_counterexample :
    qualifies zeroDurAuds 1 = true ∧
    (processSubtitles default default zeroDurSubs zeroDurAuds).1.map
      Seg.renderIndex = [0] := by
  decide

/-- C4 amended — Main-caption emission contract: exactly one main-caption
segment is emitted per qualifying line (a line index below both list
lengths whose paired audio segment has positive duration; lines at or
beyond the audio segment count or with non-positive paired duration emit
nothing); the j-th emitted segment copies the target range of its
qualifying line's audio segment exactly, and its render index equals j, the
number of previously emitted lines — which equals the line index i exactly
when no earlier line was skipped; the `start`/`end` hints embedded in the
subtitle records are ignored (the output is unchanged if they are erased). -/
theorem main_caption_emission (pM pR : Seg) (subs : List SubRec) (A : List Seg) :
    (processSubtitles pM pR subs A).1.length = (qualifyingIdxs subs.length A).length ∧
    (∀ j : ℕ, j < (qualifyingIdxs subs.length A).length →
      ((processSubtitles pM pR subs A).1.getD j default).targetStart =
        (A.getD ((qualifyingIdxs subs.length A).getD j 0) default).targetStart ∧
      ((processSubtitles pM pR subs A).1.getD j default).targetDuration =
        (A.getD ((qualifyingIdxs subs.length A).getD j 0) default).targetDuration ∧
      ((processSubtitles pM pR subs A).1.getD j default).renderIndex = j) ∧
    processSubtitles pM pR (subs.map fun s =>
      { s with startHint := [], endHint := [] }) A =
      processSubtitles pM pR subs A := by
  have hquals : qualifyingIdxs subs.length A = qualsFrom A 0 subs.length := by
    rw [qualifyingIdxs, qualsFrom, List.range_eq_range']
  rw [processSubtitles, processLoop_fst pM pR A subs 0 0, hquals]
  refine ⟨mainsGo_length pM A subs 0 0, ?_, processLoop_hint_blind pM pR A subs 0 0⟩
  intro j hj
  have h := mainsGo_props pM A subs 0 0 j hj
  simpa using h

/-- Witness for C4's amended claim at the counterexample input: one
qualifying line, whose emitted segment copies the audio target range and
has render index 0. -/
theorem main_caption_emission_witness :
    (processSubtitles default default zeroDurSubs zeroDurAuds).1.length =
      (qualifyingIdxs 2 zeroDurAuds).length ∧
    ((processSubtitles default default zeroDurSubs zeroDurAuds).1.getD 0
        default).targetDuration =
      (zeroDurAuds.getD ((qualifyingIdxs 2 zeroDurAuds).getD 0 0)
        default).targetDuration ∧
    ((processSubtitles default default zeroDurSubs zeroDurAuds).1.getD 0
        default).renderIndex = 0 := by
  have h := main_caption_emission default default zeroDurSubs zeroDurAuds
  have h0 := h.2.1 0 (by decide)
  exact ⟨h.1, h0.2.1, h0.2.2⟩

/-! ### Ruby line-wrap truncation -/

lemma foldl_add_map (f : ℕ → ℚ) :
    ∀ (l : List ℕ) (a : ℚ), l.foldl (fun acc k => acc + f k) a = a + (l.map f).sum := by
  intro l
  induction l with
  | nil => intro a; simp
  | cons x xs ih =>
    intro a
    rw [List.foldl_cons, ih (a + f x), List.map_cons, List.sum_cons]
    ring

lemma map_range_getD (l : List Char) (s : ℕ) :
    ∀ n : ℕ, n ≤ l.length - s →
      (List.range n).map (fun k => getCharWidth (l.getD (s + k) 'a')) =
        ((l.drop s).take n).map getCharWidth := by
  intro n
  induction n with
  | zero => intro h; simp
  | succ n ih =>
    intro h
    rw [List.range_succ, List.map_append, ih (by omega)]
    have hsn : s + n < l.length := by omega
    have hx : (l.drop s)[n]? = some (l.getD (s + n) 'a') := by
      rw [List.getElem?_drop, List.getElem?_eq_getElem hsn]
      simp [List.getD_eq_getElem?_getD, List.getElem?_eq_getElem hsn]
    rw [List.take_succ, hx]
    simp

lemma groupWidth_eq (line : List Char) (charI spanLen : ℕ) :
    groupWidth line charI spanLen =
      (((line.drop charI).take (min spanLen (line.length - charI))).map
        getCharWidth).sum := by
  rw [groupWidth, foldl_add_map, map_range_getD line charI _ (by omega)]
  simp

/-- C8 — Line-wrap boundary truncation of ruby groups: the rendered group
width of an annotation matched at character `charI` of a wrapped line sums
the widths of exactly the `min(spanLength, lineLength - charIndex)`
remaining characters of that line (a span straddling the wrap boundary is
truncated, not wrapped); the emitted ruby segment's horizontal position is
the group's left edge plus half that width; in particular a span of length
3 matched at offset 15 of a 20-character cleaned text wrapped at 16 has its
width computed over exactly 1 character, and the produced ruby segment sits
at the position derived from that single character. -/
theorem ruby_linewrap_truncation :
    (∀ (line : List Char) (charI spanLen : ℕ),
      groupWidth line charI spanLen =
        (((line.drop charI).take (min spanLen (line.length - charI))).map
          getCharWidth).sum) ∧
    (∀ (pR : Seg) (yomiMap : List (ℕ × (List Char × ℕ × ℕ))) (line : List Char)
      (baseY : ℚ) (su du : ℤ) (k : ℕ) (c : Char) (rest : List Char)
      (charI offsetG : ℕ) (curX : ℚ) (ruby spanLen kIdx),
      yomiLookup yomiMap offsetG = some (ruby, spanLen, kIdx) →
        lineRubyLoop pR yomiMap line baseY su du k (c :: rest) charI offsetG curX =
          (kIdx, mkRubySeg pR ruby su du
              (curX + groupWidth line charI spanLen / 2)
              (baseY - RUBY_Y_OFFSET) k) ::
            lineRubyLoop pR yomiMap line baseY su du k rest (charI + 1)
              (offsetG + 1) (curX + getCharWidth c)) ∧
    (min 3 ("aaaaaaaaaaaaaaax".data.length - 15) = 1 ∧
      groupWidth "aaaaaaaaaaaaaaax".data 15 3 = getCharWidth 'x' ∧
      ((processSubtitles default default
          [{ text := "aaaaaaaaaaaaaaaxyzuv".data,
             kanjis := [("xyz".data, "え".data)] }]
          [{ targetStart := 0, targetDuration := 1000000 }]).2).map
        Prod.fst = [0]) := by
  refine ⟨groupWidth_eq, ?_, by decide, ?_, by decide⟩
  · intro pR yomiMap line baseY su du k c rest charI offsetG curX ruby spanLen kIdx h
    rw [lineRubyLoop, h]
  · rw [groupWidth_eq]
    have h15 : ("aaaaaaaaaaaaaaax".data.drop 15).take
        (min 3 ("aaaaaaaaaaaaaaax".data.length - 15)) = ['x'] := rfl
    rw [h15]
    simp

/-- Witness for C8's emission clause at a concrete matched offset. -/
theorem ruby_linewrap_truncation_witness :
    lineRubyLoop default [(0, ("k".data, 2, 3))] "ab".data 0 0 1 0
        "ab".data 0 0 0 =
      (3, mkRubySeg default "k".data 0 1
          (0 + groupWidth "ab".data 0 2 / 2) (0 - RUBY_Y_OFFSET) 0) ::
        lineRubyLoop default [(0, ("k".data, 2, 3))] "ab".data 0 0 1 0
          "b".data 1 1 (0 + getCharWidth 'a') :=
  ruby_linewrap_truncation.2.1 default [(0, ("k".data, 2, 3))] "ab".data 0 0 1 0
    'a' "b".data 0 0 0 "k".data 2 3 (by decide)

end VP

